import Mathlib

/-!
Verification development for `paraatm/safety/ground_ssd.py`, the ground
state-space-display (SSD) conflict engine.  The module computes, per time
window and per aircraft, a Free Path Fraction: the fraction of the
aircraft's reachable-velocity annulus not blocked by velocity obstacles
(VOs) induced by nearby aircraft, using the external `pyclipper` polygon
clipper.

The scalar pipeline (distance clamping, arcsin half-angles, VO vertex
arithmetic, the area bookkeeping branches, the FPF division, the driver
loop) is embedded directly from the source.  The external polygon clip
engine (`pyclipper.Execute`) is modelled by its ideal set semantics:
`CT_INTERSECTION` is set intersection and `CT_DIFFERENCE` is set
difference, with region area given by Lebesgue measure on the velocity
plane (identified with `ℂ`); the sampled 180-gon annulus is idealized to
the exact annulus, consistent with the "up to clipping tolerance" reading.
-/

namespace GroundSSD

open Real

/-- Module constant `MILES_TO_NM` (line 18 of the source). -/
def MILES_TO_NM : ℝ := 0.868976

/-- Module constant `FT_TO_M` (line 20 of the source). -/
def FT_TO_M : ℝ := 0.3048

/-- ADS-B sensor range in meters, `adsbmax = 65 * 5280 * FT_TO_M`
(line 255 of `_conflict`). -/
def adsbmax : ℝ := 65 * 5280 * FT_TO_M

/-- The VO half-angle cap `alpham = 0.4999 * np.pi` (line 253). -/
noncomputable def alpham : ℝ := 0.4999 * Real.pi

/-- Lines 297-298 of `_conflict`, applied entrywise to the pair-distance
array: first `dist[(dist < hsep) & (dist > 0)] = hsep`, then
`dist[dist == 0] = hsep + 1`. -/
noncomputable def clampDist (hsep d : ℝ) : ℝ :=
  let d1 := if d < hsep ∧ 0 < d then hsep else d
  if d1 = 0 then hsep + 1 else d1

/-- Lines 303-305 of `_conflict`, applied entrywise:
`alpha = np.arcsin(hsep / dist)` followed by `alpha[alpha > alpham] = alpham`. -/
noncomputable def alphaOf (hsep d : ℝ) : ℝ :=
  let a := Real.arcsin (hsep / clampDist hsep d)
  if alpham < a then alpham else a

theorem clampDist_pos (hsep d : ℝ) (hd : 0 ≤ d) :
    hsep ≤ clampDist hsep d := by
  simp only [clampDist]
  split_ifs with h1 h2 h3
  · linarith
  · exact le_refl hsep
  · linarith
  · rcases lt_or_eq_of_le hd with hd' | hd'
    · by_contra hcon
      exact h1 ⟨by linarith [not_le.mp hcon], hd'⟩
    · exact absurd hd'.symm h3

/-- C5: Deterministic distance clamp — a raw pairwise distance that is
positive but strictly below the separation distance `hsep` is set to exactly
`hsep`, and a raw distance of exactly zero is set to `hsep + 1` (the fixed
small increment is `1`). -/
theorem clampDist_floor (hsep d : ℝ) (h0 : 0 < d) (hlt : d < hsep) :
    clampDist hsep d = hsep ∧ clampDist hsep 0 = hsep + 1 := by
  constructor
  · simp only [clampDist]
    split_ifs with h1 h2 h3
    · exfalso; rw [h2] at hlt; linarith
    · rfl
    · exact absurd ⟨hlt, h0⟩ h1
    · exact absurd ⟨hlt, h0⟩ h1
  · simp [clampDist]

theorem clampDist_floor_witness :
    clampDist 2 1 = 2 ∧ clampDist 2 0 = 2 + 1 :=
  clampDist_floor 2 1 (by norm_num) (by norm_num)

/-- C6: Arcsin domain safety — after the distance floor-clamp, the argument
`hsep / dist` passed to `arcsin` is at most `1`, and the resulting VO
half-angle is capped at `0.4999 * π`. -/
theorem arcsin_domain_safe (hsep d : ℝ) (hs : 0 < hsep) (hd : 0 ≤ d) :
    hsep / clampDist hsep d ≤ 1 ∧ alphaOf hsep d ≤ 0.4999 * Real.pi := by
  have hc : hsep ≤ clampDist hsep d := clampDist_pos hsep d hd
  constructor
  · rw [div_le_one (by linarith)]
    exact hc
  · simp only [alphaOf, alpham]
    split_ifs with h
    · exact le_refl _
    · exact le_of_not_lt h

theorem arcsin_domain_safe_witness :
    1 / clampDist 1 0 ≤ 1 ∧ alphaOf 1 0 ≤ 0.4999 * Real.pi :=
  arcsin_domain_safe 1 0 (by norm_num) (by norm_num)

/-- Line 317 of `_conflict`:
`x1 = (sinqdr + cosqdrtanalpha) * 2 * ac_info[i].vmax`. -/
noncomputable def voX1 (qdr alpha vmax : ℝ) : ℝ :=
  (Real.sin qdr + Real.cos qdr * Real.tan alpha) * 2 * vmax

/-- Line 318: `x2 = (sinqdr - cosqdrtanalpha) * 2 * ac_info[i].vmax`. -/
noncomputable def voX2 (qdr alpha vmax : ℝ) : ℝ :=
  (Real.sin qdr - Real.cos qdr * Real.tan alpha) * 2 * vmax

/-- Line 319: `y1 = (cosqdr - sinqdrtanalpha) * 2 * ac_info[i].vmax`. -/
noncomputable def voY1 (qdr alpha vmax : ℝ) : ℝ :=
  (Real.cos qdr - Real.sin qdr * Real.tan alpha) * 2 * vmax

/-- Line 320: `y2 = (cosqdr + sinqdrtanalpha) * 2 * ac_info[i].vmax`. -/
noncomputable def voY2 (qdr alpha vmax : ℝ) : ℝ :=
  (Real.cos qdr + Real.sin qdr * Real.tan alpha) * 2 * vmax

/-- Lines 347-348: the per-neighbor mirroring factor, `-1` exactly when the
neighbor's canonical index precedes the own aircraft's index
(`fix[i_other < i] = -1`). -/
def voFix (iOther i : ℕ) : ℝ := if iOther < i then -1 else 1

/-- The VO wedge aircraft `i` builds against neighbor `m`, in relative
velocity space (lines 355-365 with the neighbor's ground-velocity
translation removed): vertices `(0,0)`, `fix*(x1,y1)`, `fix*(x2,y2)`, with
`fix = voFix m i` and the pair's shared bearing `qdr` and half-angle
`alpha`; the legs are scaled by aircraft `i`'s own `2*vmax`. -/
noncomputable def voWedgeRel (i m : ℕ) (qdr alpha vmax : ℝ) : List (ℝ × ℝ) :=
  [(0, 0),
   (voFix m i * voX1 qdr alpha vmax, voFix m i * voY1 qdr alpha vmax),
   (voFix m i * voX2 qdr alpha vmax, voFix m i * voY2 qdr alpha vmax)]

/-- C4 counterexample: with pair bearing `0`, half-angle `π/4`, `vmax = 1`
for aircraft 0 and `vmax = 2` for aircraft 1, the wedge aircraft 1 builds
against aircraft 0 is not the vertex-wise negation of the wedge aircraft 0
builds against aircraft 1: each wedge's legs are scaled by its own
aircraft's `2*vmax`, so the mirrored wedge is additionally rescaled. -/
theorem vo_mirror_counterexample :
    voWedgeRel 1 0 0 (Real.pi / 4) 2 ≠
      (voWedgeRel 0 1 0 (Real.pi / 4) 1).map (fun p => (-p.1, -p.2)) := by
  norm_num [voWedgeRel, voFix, voX1, voX2, voY1, voY2, Real.tan_pi_div_four,
    Prod.ext_iff]

/-- C4 amended: for a pair `i < m` sharing the same `vmax`, the wedge
aircraft `m` builds against `i` is the vertex-wise negation (point mirror
through the origin of relative-velocity space) of the wedge aircraft `i`
builds against `m`; and the mirroring factor is `-1` exactly when the
neighbor's canonical index precedes the own index. -/
theorem vo_mirror_equal_vmax (i m : ℕ) (qdr alpha vmax : ℝ) (him : i < m) :
    voWedgeRel m i qdr alpha vmax =
      (voWedgeRel i m qdr alpha vmax).map (fun p => (-p.1, -p.2)) ∧
    (∀ j k : ℕ, voFix j k = -1 ↔ j < k) := by
  constructor
  · have h1 : voFix i m = -1 := by simp [voFix, him]
    have h2 : voFix m i = 1 := by simp [voFix, not_lt.mpr (le_of_lt him)]
    simp only [voWedgeRel, h1, h2, List.map_cons, List.map_nil]
    norm_num
  · intro j k
    simp only [voFix]
    split_ifs with h
    · simpa using h
    · constructor
      · intro habs; norm_num at habs
      · intro hjk; exact absurd hjk h

theorem vo_mirror_equal_vmax_witness :
    voWedgeRel 1 0 0 0 1 =
      (voWedgeRel 0 1 0 0 1).map (fun p => (-p.1, -p.2)) ∧
    (∀ j k : ℕ, voFix j k = -1 ↔ j < k) :=
  vo_mirror_equal_vmax 0 1 0 0 1 (by norm_num)

/-- Edge walk of the signed shoelace sum of a contour, wrapping the last
vertex back to `first`.  This is the semantics of `pyclipper.Area`: the
signed, orientation-sensitive polygon area (before the final division
by 2). -/
def shoelaceAux (first : ℝ × ℝ) : List (ℝ × ℝ) → ℝ
  | [] => 0
  | [p] => p.1 * first.2 - first.1 * p.2
  | p :: q :: rest => (p.1 * q.2 - q.1 * p.2) + shoelaceAux first (q :: rest)

/-- Signed shoelace area of one contour, positive for counter-clockwise
winding and negative for clockwise: the value `pyclipper.Area` returns. -/
noncomputable def shoelace : List (ℝ × ℝ) → ℝ
  | [] => 0
  | p :: rest => shoelaceAux p (p :: rest) / 2

/-- pyclipper's default fixed-point scaling factor `2^31`. -/
def CLIPPER_SCALE : ℝ := 2 ^ 31

/-- `pyclipper.scale_to_clipper` on one path: each coordinate is multiplied
by the scaling factor (the rounding to integer coordinates is the clipping
tolerance and is idealized away). -/
def scale_to_clipper (ps : List (ℝ × ℝ)) : List (ℝ × ℝ) :=
  ps.map fun p => (p.1 * CLIPPER_SCALE, p.2 * CLIPPER_SCALE)

/-- `pyclipper.scale_from_clipper` on one scalar: divide by the factor. -/
noncomputable def scale_from_clipper (x : ℝ) : ℝ := x / CLIPPER_SCALE

/-- `_area` (lines 132-144), multi-exterior branch: every contour is scaled
to clipper coordinates, `pyclipper.Area` is taken, the result is unscaled
twice, and the contours' contributions are summed.  (The single-exterior
branch applies the same expression to the lone contour.) -/
noncomputable def areaOfSet (vset : List (List (ℝ × ℝ))) : ℝ :=
  (vset.map fun c =>
    scale_from_clipper (scale_from_clipper (shoelace (scale_to_clipper c)))).sum

theorem shoelaceAux_scale (f : ℝ × ℝ) : ∀ l : List (ℝ × ℝ),
    shoelaceAux (f.1 * CLIPPER_SCALE, f.2 * CLIPPER_SCALE) (scale_to_clipper l) =
      CLIPPER_SCALE ^ 2 * shoelaceAux f l
  | [] => by simp [shoelaceAux, scale_to_clipper]
  | [p] => by simp only [scale_to_clipper, List.map_cons, List.map_nil, shoelaceAux]; ring
  | p :: q :: rest => by
    have ih := shoelaceAux_scale f (q :: rest)
    simp only [scale_to_clipper, List.map_cons] at ih ⊢
    simp only [shoelaceAux]
    rw [ih]
    ring

theorem shoelace_scale (l : List (ℝ × ℝ)) :
    shoelace (scale_to_clipper l) = CLIPPER_SCALE ^ 2 * shoelace l := by
  cases l with
  | nil => simp [shoelace, scale_to_clipper]
  | cons p rest =>
    have h := shoelaceAux_scale p (p :: rest)
    simp only [scale_to_clipper, List.map_cons] at h ⊢
    simp only [shoelace]
    rw [h]
    ring

/-- The fixed-point scale round trip in `_area` cancels exactly: one
scale-up of the coordinates scales the area by the factor squared, and the
two scalar unscalings divide it out, leaving the plain signed shoelace
area of the contour. -/
theorem contour_roundtrip (c : List (ℝ × ℝ)) :
    scale_from_clipper (scale_from_clipper (shoelace (scale_to_clipper c))) =
      shoelace c := by
  rw [shoelace_scale]
  simp only [scale_from_clipper, CLIPPER_SCALE]
  field_simp
  ring

theorem area_signed_sum (vset : List (List (ℝ × ℝ))) :
    areaOfSet vset = (vset.map shoelace).sum := by
  induction vset with
  | nil => simp [areaOfSet]
  | cons c rest ih =>
    simp only [areaOfSet, List.map_cons, List.sum_cons] at ih ⊢
    rw [contour_roundtrip, ih]

/-- C7 counterexample: on the single clockwise-wound triangle
`(0,0),(0,1),(1,0)` the area calculator returns `-1/2`: it does not take
the absolute value of the contour's signed area, and its result is
negative. -/
theorem area_negative_counterexample :
    areaOfSet [[(0, 0), (0, 1), (1, 0)]] = -(1 / 2) ∧
      ¬ (0 : ℝ) ≤ areaOfSet [[(0, 0), (0, 1), (1, 0)]] := by
  have h : areaOfSet [[(0, 0), (0, 1), (1, 0)]] = -(1 / 2) := by
    rw [area_signed_sum]
    norm_num [shoelace, shoelaceAux]
  exact ⟨h, by rw [h]; norm_num⟩

/-- C7 amended: the area calculator returns the sum over contours of each
contour's *signed* shoelace area (the fixed-point scale round trip cancels
exactly); when every contour is non-negatively (counter-clockwise) wound
this equals the sum of the contours' absolute areas and is non-negative,
but a clockwise contour contributes its area negatively. -/
theorem area_calculator_signed (vset : List (List (ℝ × ℝ)))
    (h : ∀ c ∈ vset, 0 ≤ shoelace c) :
    areaOfSet vset = (vset.map shoelace).sum ∧
    areaOfSet vset = (vset.map fun c => |shoelace c|).sum ∧
    0 ≤ areaOfSet vset := by
  have hs := area_signed_sum vset
  refine ⟨hs, ?_, ?_⟩
  · rw [hs]
    congr 1
    exact List.map_congr_left fun c hc => (abs_of_nonneg (h c hc)).symm
  · rw [hs]
    refine List.sum_nonneg ?_
    intro x hx
    obtain ⟨c, hc, rfl⟩ := List.mem_map.mp hx
    exact h c hc

theorem area_calculator_signed_witness :
    areaOfSet [[(0, 0), (1, 0), (0, 1)]] =
      ([[(0, 0), (1, 0), (0, 1)]].map shoelace).sum ∧
    areaOfSet [[(0, 0), (1, 0), (0, 1)]] =
      ([[(0, 0), (1, 0), (0, 1)]].map fun c => |shoelace c|).sum ∧
    0 ≤ areaOfSet [[(0, 0), (1, 0), (0, 1)]] :=
  area_calculator_signed [[(0, 0), (1, 0), (0, 1)]] (by
    intro c hc
    simp only [List.mem_singleton] at hc
    subst hc
    norm_num [shoelace, shoelaceAux])

/-- Lines 372-404 of `_conflict`: which neighbors receive a clip path.  The
loop variable `j` runs over positions of the (ADS-B filtered) neighbor
array `i_other`, and a position is skipped when
`traffic.loc[traffic.index[j]].callsign` — the traffic row at *position*
`j`, not the row of neighbor `i_other[j]` — equals aircraft `i`'s callsign.
`callsigns` is the window's callsign column by row position; callsigns are
modelled as numeric identifiers. -/
def clipNeighbors (callsigns : List ℕ) (i : ℕ) (iOther : List ℕ) : List ℕ :=
  ((List.range iOther.length).filter fun j =>
    decide (callsigns.getD j 0 ≠ callsigns.getD i 0)).map fun j => iOther.getD j 0

/-- C8 (failing input): three aircraft with callsigns `[0, 1, 0]` (aircraft
2 duplicates aircraft 0's callsign), own index `i = 0`, in-range neighbors
`i_other = [1, 2]`.  The engine adds a clip path for the duplicate
neighbor 2 — the duplicate is not excluded — and drops the non-duplicate
neighbor 1 instead (row 0 is aircraft 0 itself, so position 0 trivially
matches the own callsign). -/
theorem duplicate_callsign_not_excluded :
    clipNeighbors [0, 1, 0] 0 [1, 2] = [2] := by decide

/-- `_conflict`'s aircraft-count guard (lines 279-281): a window with fewer
than two aircraft returns `None`; otherwise the per-aircraft results of the
window, given by the result function `f`. -/
def conflictGuard {α β : Type} (f : List α → List β) (w : List α) :
    Option (List β) :=
  if w.length < 2 then none else some (f w)

/-- The driver loop of `ground_ssd_safety_analysis` (lines 56-64): each
window's `_conflict` output is appended when it is not `None` (an empty
result list likewise contributes nothing), and the kept windows' results
are concatenated in dataset order. -/
def groundSSDResults {α β : Type} (f : List α → List β)
    (ws : List (List α)) : List β :=
  (ws.filterMap (conflictGuard f)).flatten

/-- C9: a window with fewer than two aircraft (zero or one) yields no
conflict records — the guard returns `None` — and this is not a failure:
the dataset's results are exactly those of the remaining windows. -/
theorem small_window_no_results {α β : Type} (f : List α → List β)
    (w : List α) (hw : w.length < 2) :
    conflictGuard f w = none ∧
    ∀ ws1 ws2 : List (List α),
      groundSSDResults f (ws1 ++ w :: ws2) = groundSSDResults f (ws1 ++ ws2) := by
  have hg : conflictGuard f w = none := by simp [conflictGuard, hw]
  refine ⟨hg, fun ws1 ws2 => ?_⟩
  simp [groundSSDResults, List.filterMap_append, List.filterMap_cons, hg]

theorem small_window_no_results_witness :
    conflictGuard (fun _ : List ℕ => [(0 : ℕ)]) [5] = none ∧
    groundSSDResults (fun _ : List ℕ => [(0 : ℕ)]) [[1, 2], [5]] =
      groundSSDResults (fun _ : List ℕ => [(0 : ℕ)]) [[1, 2]] := by
  have h := small_window_no_results (fun _ : List ℕ => [(0 : ℕ)]) [5] (by norm_num)
  exact ⟨h.1, h.2 [[1, 2]] []⟩

/-- One entry of `_load_BADA`'s output: `{vmin, vmax, sep}`. -/
structure BadaInfo where
  vmin : ℝ
  vmax : ℝ
  sep : ℝ
deriving Inhabited

/-- Line 243 of `_conflict`: `hsep = ac_info[0].sep` — the separation
distance for the whole window is read from the first aircraft's envelope
alone. -/
def conflictHsep (acInfo : List BadaInfo) : ℝ := acInfo.headI.sep

/-- Lines 297-298 applied to the whole pair-distance array: the clamp of
every pair uses the window-level `hsep`. -/
noncomputable def windowClampedDists (acInfo : List BadaInfo) (raw : List ℝ) :
    List ℝ :=
  raw.map (clampDist (conflictHsep acInfo))

/-- Lines 303-305 applied to the whole pair-distance array: the VO
half-angle of every pair uses the window-level `hsep`. -/
noncomputable def windowAlphas (acInfo : List BadaInfo) (raw : List ℝ) :
    List ℝ :=
  raw.map (alphaOf (conflictHsep acInfo))

/-- C10: the separation distance entering both the distance floor-clamp and
every pair's VO half-angle is the first aircraft's `sep` alone, applied
uniformly to all pairs: the clamped distances and half-angles are the map
of the index-0 envelope's clamp and alpha over the raw distances, and they
do not change when every other aircraft's envelope is replaced. -/
theorem hsep_from_first_aircraft (e0 : BadaInfo) (rest rest' : List BadaInfo)
    (raw : List ℝ) :
    windowClampedDists (e0 :: rest) raw = raw.map (clampDist e0.sep) ∧
    windowAlphas (e0 :: rest) raw = raw.map (alphaOf e0.sep) ∧
    windowClampedDists (e0 :: rest) raw = windowClampedDists (e0 :: rest') raw ∧
    windowAlphas (e0 :: rest) raw = windowAlphas (e0 :: rest') raw := by
  simp [windowClampedDists, windowAlphas, conflictHsep]

/-- IEEE floating-point division as NumPy performs it at line 452:
a finite quotient for a nonzero denominator, and a non-numeric value
(`nan` from `0/0`, `±inf` otherwise) for a zero denominator, modelled as
`none`. -/
noncomputable def npDiv (a b : ℝ) : Option ℝ :=
  if b = 0 then none else some (a / b)

/-- Line 452 of `_conflict`:
`fpf = ARV_area_loc[i] / (FRV_area_loc[i] + ARV_area_loc[i])`. -/
noncomputable def fpfOf (frvArea arvArea : ℝ) : Option ℝ :=
  npDiv arvArea (frvArea + arvArea)

/-- C3: when the FPF denominator `FRV_area + ARV_area` is zero, the emitted
fpf is the undefined value (`nan`, modelled `none`), and it is not a
numeric value — in particular not `0` and not `1`. -/
theorem fpf_zero_denominator_undefined (frvArea arvArea : ℝ)
    (h : frvArea + arvArea = 0) :
    fpfOf frvArea arvArea = none ∧ ∀ x : ℝ, fpfOf frvArea arvArea ≠ some x := by
  have hnone : fpfOf frvArea arvArea = none := by
    simp [fpfOf, npDiv, h]
  exact ⟨hnone, fun x => by rw [hnone]; exact (Option.noConfusion ·)⟩

theorem fpf_zero_denominator_undefined_witness :
    fpfOf 0 0 = none ∧ ∀ x : ℝ, fpfOf 0 0 ≠ some x :=
  fpf_zero_denominator_undefined 0 0 (by norm_num)

open MeasureTheory

/-- The reachable-velocity annulus of an aircraft with envelope
`{vmin, vmax}`: velocities `v` with `vmin ≤ ‖v‖ ≤ vmax`.  Lines 257-277
sample this ring as a 180-gon (outer circle clockwise, inner circle
counter-clockwise); the polygonal sampling is part of the clipping
tolerance and the ring is idealized to the exact annulus.  The velocity
plane is identified with `ℂ`. -/
def ssdRing (vmin vmax : ℝ) : Set ℂ :=
  Metric.closedBall 0 vmax \ Metric.ball 0 vmin

/-- The union of the neighbors' VO regions added as clip paths
(lines 373-404). -/
def voUnion (vos : List (Set ℂ)) : Set ℂ := vos.foldr (· ∪ ·) ∅

/-- Ideal semantics of `pc.Execute(pyclipper.CT_INTERSECTION, ...)` at
line 407: the Forbidden Reachable-Velocity region is the subject ring
intersected with the union of the clip paths. -/
def FRVof (vmin vmax : ℝ) (vos : List (Set ℂ)) : Set ℂ :=
  ssdRing vmin vmax ∩ voUnion vos

/-- Ideal semantics of `pc.Execute(pyclipper.CT_DIFFERENCE, ...)` at
line 409: the Allowed Reachable-Velocity region is the subject ring minus
the union of the clip paths. -/
def ARVof (vmin vmax : ℝ) (vos : List (Set ℂ)) : Set ℂ :=
  ssdRing vmin vmax \ voUnion vos

/-- The analytic annulus area `np.pi * (vmax ** 2 - vmin ** 2)` assigned at
lines 335, 422 and 433 of `_conflict`. -/
noncomputable def annulusArea (vmin vmax : ℝ) : ℝ :=
  Real.pi * (vmax ^ 2 - vmin ^ 2)

theorem volume_ssdRing (vmin vmax : ℝ) (h0 : 0 ≤ vmin) (h1 : vmin ≤ vmax) :
    volume (ssdRing vmin vmax) = ENNReal.ofReal (annulusArea vmin vmax) := by
  have hpi : (NNReal.pi : ENNReal) = ENNReal.ofReal Real.pi := by
    rw [← NNReal.coe_real_pi, ENNReal.ofReal_coe_nnreal]
  have hsub : Metric.ball (0 : ℂ) vmin ⊆ Metric.closedBall 0 vmax :=
    Metric.ball_subset_closedBall.trans (Metric.closedBall_subset_closedBall h1)
  have hfin : volume (Metric.ball (0 : ℂ) vmin) ≠ ⊤ := by
    rw [Complex.volume_ball]
    exact ENNReal.mul_ne_top (ENNReal.pow_ne_top ENNReal.ofReal_ne_top)
      ENNReal.coe_ne_top
  unfold ssdRing annulusArea
  rw [measure_diff hsub measurableSet_ball.nullMeasurableSet hfin,
    Complex.volume_closedBall, Complex.volume_ball, hpi,
    ← ENNReal.ofReal_pow (h0.trans h1), ← ENNReal.ofReal_pow h0,
    ← ENNReal.ofReal_mul (by positivity), ← ENNReal.ofReal_mul (by positivity),
    ← ENNReal.ofReal_sub _ (by positivity)]
  congr 1
  ring

/-- C1: Area-partition law — for an aircraft whose clip results are both
non-empty, the FRV area plus the ARV area equals the full annulus area
`π (vmax² − vmin²)` of its reachable-velocity ring (areas taken in the
ideal clip semantics, i.e. up to clipping tolerance). -/
theorem frv_arv_partition (vmin vmax : ℝ) (vos : List (Set ℂ))
    (h0 : 0 ≤ vmin) (h1 : vmin ≤ vmax)
    (hm : MeasurableSet (voUnion vos))
    (hFRV : FRVof vmin vmax vos ≠ ∅) (hARV : ARVof vmin vmax vos ≠ ∅) :
    volume (FRVof vmin vmax vos) + volume (ARVof vmin vmax vos) =
      ENNReal.ofReal (annulusArea vmin vmax) := by
  rw [← volume_ssdRing vmin vmax h0 h1]
  exact measure_inter_add_diff _ hm

theorem frv_arv_partition_witness :
    volume (FRVof 0 1 [{z : ℂ | 0 ≤ z.re}]) +
        volume (ARVof 0 1 [{z : ℂ | 0 ≤ z.re}]) =
      ENNReal.ofReal (annulusArea 0 1) := by
  have hm : MeasurableSet (voUnion [{z : ℂ | 0 ≤ z.re}]) := by
    simp only [voUnion, List.foldr_cons, List.foldr_nil]
    exact (measurableSet_le measurable_const Complex.measurable_re).union
      MeasurableSet.empty
  have hFRV : FRVof 0 1 [{z : ℂ | 0 ≤ z.re}] ≠ ∅ := by
    refine Set.nonempty_iff_ne_empty.mp ⟨1, ?_⟩
    simp [FRVof, ssdRing, voUnion, Complex.dist_eq]
  have hARV : ARVof 0 1 [{z : ℂ | 0 ≤ z.re}] ≠ ∅ := by
    refine Set.nonempty_iff_ne_empty.mp ⟨-1, ?_⟩
    simp [ARVof, ssdRing, voUnion, Complex.dist_eq]
  exact frv_arv_partition 0 1 [{z : ℂ | 0 ≤ z.re}] (by norm_num) (by norm_num)
    hm hFRV hARV

open Classical in
/-- Lines 414-452 of `_conflict` under the ideal clip semantics: the two
emptiness branches assign the analytic annulus area
`np.pi * (vmax**2 - vmin**2)` to the non-empty side and `0` to the empty
side, bypassing the area calculator; the non-degenerate branch uses the
clip areas via the area functional `μA`.  The result triple is
`(FRV_area, ARV_area, fpf)` with `fpf` from line 452. -/
noncomputable def aircraftFpf (μA : Set ℂ → ℝ) (vmin vmax : ℝ)
    (vos : List (Set ℂ)) : ℝ × ℝ × Option ℝ :=
  let FRV := FRVof vmin vmax vos
  let ARV := ARVof vmin vmax vos
  let areas : ℝ × ℝ :=
    if ARV = ∅ then (annulusArea vmin vmax, 0)
    else if FRV = ∅ then (0, annulusArea vmin vmax)
    else (μA FRV, μA ARV)
  (areas.1, areas.2, fpfOf areas.1 areas.2)

/-- Lines 340-343 of `_conflict`: only neighbors whose pair distance is
strictly below `adsbmax` are kept (`ac_adsb = np.where(dist[ind] < adsbmax)`). -/
noncomputable def adsbFilter (ind : List ℕ) (dist : ℕ → ℝ) : List ℕ :=
  ind.filter fun k => decide (dist k < adsbmax)

/-- C2: an aircraft with zero neighbors within ADS-B sensor range gets
`fpf = 1` exactly, with FRV area `0` and ARV area the analytic
`π (vmax² − vmin²)` (the FRV-empty branch assigns the analytic formulas
rather than invoking the area calculator on clip output). -/
theorem no_neighbor_fpf_one (μA : Set ℂ → ℝ) (vmin vmax : ℝ)
    (h0 : 0 ≤ vmin) (h1 : vmin < vmax)
    (ind : List ℕ) (dist : ℕ → ℝ) (hfar : ∀ k ∈ ind, adsbmax ≤ dist k)
    (callsigns : List ℕ) (i : ℕ) (vo : ℕ → Set ℂ) :
    aircraftFpf μA vmin vmax
        ((clipNeighbors callsigns i (adsbFilter ind dist)).map vo) =
      (0, annulusArea vmin vmax, some 1) := by
  have hfilter : adsbFilter ind dist = [] := by
    refine List.filter_eq_nil_iff.mpr fun k hk => ?_
    simpa using not_lt.mpr (hfar k hk)
  have hclip : clipNeighbors callsigns i (adsbFilter ind dist) = [] := by
    rw [hfilter]
    simp [clipNeighbors]
  rw [hclip]
  have hvmax : (0 : ℝ) ≤ vmax := h0.trans h1.le
  have hpos : 0 < annulusArea vmin vmax := by
    have h2 : vmin ^ 2 < vmax ^ 2 := by nlinarith
    have hp := Real.pi_pos
    unfold annulusArea
    nlinarith
  have hmem : (vmax : ℂ) ∈ ssdRing vmin vmax := by
    constructor
    · simp [Complex.dist_eq, abs_of_nonneg hvmax]
    · simp [Metric.mem_ball, Complex.dist_eq, abs_of_nonneg hvmax]
      exact h1.le
  have hFempty : FRVof vmin vmax [] = ∅ := by
    simp [FRVof, voUnion]
  have hAne : ARVof vmin vmax [] ≠ ∅ := by
    have hA : ARVof vmin vmax [] = ssdRing vmin vmax := by
      simp [ARVof, voUnion]
    rw [hA]
    exact Set.nonempty_iff_ne_empty.mp ⟨(vmax : ℂ), hmem⟩
  simp only [List.map_nil, aircraftFpf, if_neg hAne, if_pos hFempty]
  simp only [fpfOf, npDiv, zero_add]
  rw [if_neg (ne_of_gt hpos), div_self (ne_of_gt hpos)]

theorem no_neighbor_fpf_one_witness :
    aircraftFpf (fun _ => 0) 0 1
        ((clipNeighbors [] 0 (adsbFilter [] fun _ => 0)).map fun _ => (∅ : Set ℂ)) =
      (0, annulusArea 0 1, some 1) :=
  no_neighbor_fpf_one (fun _ => 0) 0 1 (by norm_num) (by norm_num) []
    (fun _ => 0) (by intro k hk; exact absurd hk (List.not_mem_nil k)) [] 0
    (fun _ => (∅ : Set ℂ))

end GroundSSD
